import Mathlib

/-!
Verification of the ouroboros Catalog Resolver specification.

The repository ships only documentation, notebooks and changelogs in this
source snapshot; the resolver and container classes themselves are not
present.  Every definition below is therefore a shallow embedding modelled
from the specification text (section numbers refer to the design document),
kept executable so that concrete catalogs can be evaluated.
-/

namespace Ouroboros

/-- Modelled from the spec: semantic kinds of catalog items (section 3,
ClassifiedItem; section 4.4 Item Classifier).  The module source that
implements the classifier is missing from the snapshot. -/
inductive Kind where
  | FeatureDataset
  | FeatureClass
  | Table
  | RasterDataset
  | Unknown
deriving DecidableEq, Repr

/-- Modelled from the spec: declared field types of a table column
(section 3, FieldDescriptor). -/
inductive FieldType where
  | ShortInt
  | LongInt
  | Float32
  | Float64
  | Text
  | Date
  | ObjectID
  | Geometry
  | Blob
  | GlobalID
  | Guid
  | XML
deriving DecidableEq, Repr

/-- Modelled from the spec: fixed byte width of a field type, `none` for the
variable-width types (section 3; section 4.2 Record Decoder). -/
def FieldType.fixedWidth : FieldType → Option Nat
  | .ShortInt => some 2
  | .LongInt => some 4
  | .Float32 => some 4
  | .Float64 => some 8
  | .Date => some 8
  | .ObjectID => some 4
  | .GlobalID => some 16
  | .Guid => some 16
  | .Text => none
  | .Geometry => none
  | .Blob => none
  | .XML => none

/-- Modelled from the spec: a field descriptor from a table header
(section 3). -/
structure FieldDescriptor where
  fname : String
  ftype : FieldType
  nullable : Bool
deriving DecidableEq, Repr

/-- Modelled from the spec: a decoded field value; fixed-width values keep
their little-endian integer, variable-width values keep their raw bytes
(section 4.2). -/
inductive Value where
  | null (t : FieldType)
  | intVal (t : FieldType) (n : Nat)
  | bytesVal (t : FieldType) (bs : List Nat)
deriving DecidableEq, Repr

/-- Whether a value is present (non-null); mirrors the record null bitmask
convention where a set bit means "value present" (section 3, Record). -/
def Value.isPresent : Value → Bool
  | .null _ => false
  | _ => true

/-- Little-endian value of a byte list. -/
def leVal (bs : List Nat) : Nat := bs.foldr (fun b a => b + 256 * a) 0

/-- Little-endian encoding of `n` on `w` bytes. -/
def leBytes : Nat → Nat → List Nat
  | 0, _ => []
  | w + 1, n => n % 256 :: leBytes w (n / 256)

/-- Take exactly `k` bytes from the front, failing if fewer remain. -/
def readBytes (k : Nat) (bs : List Nat) : Option (List Nat × List Nat) :=
  if k ≤ bs.length then some (bs.take k, bs.drop k) else none

/-- Modelled from the spec: the variable-length byte-count that precedes a
variable-width value: one byte for short lengths, two extra bytes when the
high bit of the first byte is set (section 4.2). -/
def readVarLen : List Nat → Option (Nat × List Nat)
  | [] => none
  | b0 :: rest =>
    if b0 < 128 then some (b0, rest)
    else
      match rest with
      | b1 :: b2 :: rest2 => some ((b0 - 128) + 128 * (b1 + 256 * b2), rest2)
      | _ => none

/-- Encoding matching `readVarLen`, for lengths below `128 * 65536`. -/
def encodeVarLen (len : Nat) : List Nat :=
  if len < 128 then [len]
  else [128 + len % 128, len / 128 % 256, len / 128 / 256]

/-- Modelled from the spec: error kinds fatal to a table or record
(section 7, FormatError). -/
inductive FormatError where
  | badMagic
  | truncated
deriving DecidableEq, Repr

/-- Bit `i` of a null bitmask stored as a byte list, one bit per field in
descriptor order, least significant bit first (section 3, Record). -/
def bitSet (mask : List Nat) (i : Nat) : Bool :=
  Nat.testBit (mask.getD (i / 8) 0) (i % 8)

/-- Modelled from the spec: decode one present field of the given type from
the record payload (section 4.2); reading beyond the remaining bytes is a
`FormatError`. -/
def decodeField (t : FieldType) (payload : List Nat) :
    Except FormatError (Value × List Nat) :=
  match t.fixedWidth with
  | some w =>
    match readBytes w payload with
    | some (bs, rest) => .ok (.intVal t (leVal bs), rest)
    | none => .error .truncated
  | none =>
    match readVarLen payload with
    | some (len, rest) =>
      match readBytes len rest with
      | some (bs, rest2) => .ok (.bytesVal t bs, rest2)
      | none => .error .truncated
    | none => .error .truncated

/-- Modelled from the spec: decode the fields of a record against the
descriptor list, consulting bit `i + j` of the null bitmask for the `j`-th
descriptor; absent fields yield a null of the declared type and consume no
payload bytes (section 4.2). -/
def decodeFieldsAux (mask : List Nat) :
    List FieldDescriptor → Nat → List Nat → Except FormatError (List Value)
  | [], _, _ => .ok []
  | d :: ds, i, payload =>
    if bitSet mask i then
      match decodeField d.ftype payload with
      | .ok (v, payload2) =>
        match decodeFieldsAux mask ds (i + 1) payload2 with
        | .ok vs => .ok (v :: vs)
        | .error e => .error e
      | .error e => .error e
    else
      match decodeFieldsAux mask ds (i + 1) payload with
      | .ok vs => .ok (Value.null d.ftype :: vs)
      | .error e => .error e

/-- Modelled from the spec: decode one record: the null bitmask of
`ceil(fieldCount / 8)` bytes comes first, then the per-field payload
(section 4.2). -/
def decodeRecord (ds : List FieldDescriptor) (bytes : List Nat) :
    Except FormatError (List Value) :=
  match readBytes ((ds.length + 7) / 8) bytes with
  | some (mask, payload) => decodeFieldsAux mask ds 0 payload
  | none => .error .truncated

/-- Byte (value below 256) with bit `j` equal to `bs.getD j false`, least
significant bit first. -/
def bitsByte : List Bool → Nat
  | [] => 0
  | b :: rest => (if b then 1 else 0) + 2 * bitsByte rest

/-- Null bitmask bytes for a presence-bit list, 8 bits per byte. -/
def maskBytes : List Bool → List Nat
  | [] => []
  | b0 :: b1 :: b2 :: b3 :: b4 :: b5 :: b6 :: b7 :: rest =>
    bitsByte [b0, b1, b2, b3, b4, b5, b6, b7] :: maskBytes rest
  | bs => [bitsByte bs]

/-- Encoding of one present value, inverse to `decodeField`. -/
def encodeValue : Value → List Nat
  | .null _ => []
  | .intVal t n => leBytes (t.fixedWidth.getD 0) n
  | .bytesVal _ bs => encodeVarLen bs.length ++ bs

/-- Record encoding: null bitmask (set bit = present) followed by the
concatenated present-field payloads. -/
def encodeRecord (vs : List Value) : List Nat :=
  maskBytes (vs.map Value.isPresent) ++ (vs.map encodeValue).flatten

/-- A value conforms to a field type when its tag matches and its contents
fit the type's wire format. -/
def valConforms (t : FieldType) : Value → Bool
  | .null t' => t' = t
  | .intVal t' n =>
    t' = t &&
      match t.fixedWidth with
      | some w => n < 256 ^ w
      | none => false
  | .bytesVal t' bs =>
    t' = t && t.fixedWidth = none && bs.length < 128 * 65536

/-- A value list conforms to a descriptor list pointwise. -/
def recConforms : List FieldDescriptor → List Value → Bool
  | [], [] => true
  | d :: ds, v :: vs => valConforms d.ftype v && recConforms ds vs
  | _, _ => false

/-- Modelled from the spec: a table header: magic bytes, the declared record
count (invariant: nonnegative) and the ordered field descriptors
(section 3, TableHeader). -/
structure TableHeader where
  magic : Nat
  recordCount : Nat
  fields : List FieldDescriptor
deriving DecidableEq, Repr

/-- Magic value of a supported table-format version (section 4.1). -/
def gdbMagic : Nat := 3

/-- Modelled from the spec: a companion index file: its own record count and
one byte offset per record (section 4.1).  The table source is missing from
the snapshot. -/
structure IndexFile where
  recordCount : Nat
  offsets : List Nat
deriving DecidableEq, Repr

/-- An index is usable only when it is well formed (offset per declared
record) and its record count agrees with the table header's (section 4.1). -/
def ixValid (hdr : TableHeader) (ix : IndexFile) : Bool :=
  ix.offsets.length == ix.recordCount && ix.recordCount == hdr.recordCount

/-- Record payload found at byte offset `off`: 4-byte little-endian length,
then that many payload bytes (section 4.1, indexed path). -/
def recordAt (bytes : List Nat) (off : Nat) : List Nat :=
  let b := bytes.drop off
  (b.drop 4).take (leVal (b.take 4))

/-- Indexed read: seek to each offset the index declares (section 4.1). -/
def indexedRead (ix : IndexFile) (bytes : List Nat) : List (List Nat) :=
  ix.offsets.map (recordAt bytes)

/-- Fuel-indexed body of the linear scan; the fuel only bounds the number of
records walked and never runs out when it starts at the byte count, since
every step consumes at least the 4 length bytes. -/
def linearScanAux : Nat → List Nat → List (List Nat)
  | 0, _ => []
  | fuel + 1, bytes =>
    if 4 ≤ bytes.length then
      let lenN := leVal (bytes.take 4)
      let rest := bytes.drop 4
      if lenN = 0 then linearScanAux fuel rest
      else if lenN < 2 ^ 31 then rest.take lenN :: linearScanAux fuel (rest.drop lenN)
      else linearScanAux fuel (rest.drop (2 ^ 32 - lenN))
    else []

/-- Modelled from the spec: index-free linear scan: each record starts with a
4-byte little-endian signed length; a zero or negative declared length marks
a deleted record, whose `|length|` bytes are skipped (section 4.1). -/
def linearScan (bytes : List Nat) : List (List Nat) :=
  linearScanAux bytes.length bytes

/-- Modelled from the spec: the Table Reader: fails on unknown magic bytes;
uses the companion index only when present and valid, otherwise falls back
to the linear scan (section 4.1). -/
def readTable (hdr : TableHeader) (idx : Option IndexFile) (bytes : List Nat) :
    Except FormatError (List (List Nat)) :=
  if hdr.magic ≠ gdbMagic then .error .badMagic
  else
    match idx with
    | some ix => if ixValid hdr ix then .ok (indexedRead ix bytes) else .ok (linearScan bytes)
    | none => .ok (linearScan bytes)

/-- A physical record slot on disk: a live record payload or a deleted slot
whose junk bytes are skipped during the scan. -/
inductive Slot where
  | live (payload : List Nat)
  | deleted (junk : List Nat)
deriving DecidableEq, Repr

/-- Wire encoding of one slot: live slots carry their positive length,
deleted slots a zero or negative (two's-complement) length (section 4.1). -/
def encodeSlot : Slot → List Nat
  | .live p => leBytes 4 p.length ++ p
  | .deleted junk =>
    (if junk.length = 0 then leBytes 4 0 else leBytes 4 (2 ^ 32 - junk.length)) ++ junk

/-- Wire encoding of a slot sequence. -/
def encodeSlots (slots : List Slot) : List Nat := (slots.map encodeSlot).flatten

/-- The live payloads of a slot sequence, in order. -/
def liveRecords (slots : List Slot) : List (List Nat) :=
  slots.filterMap fun s =>
    match s with
    | .live p => some p
    | .deleted _ => none

/-- A slot conforms when its byte count fits a signed 32-bit length and live
payloads are nonempty (a zero length would read back as deleted). -/
def slotConforms : Slot → Bool
  | .live p => 0 < p.length && p.length < 2 ^ 31
  | .deleted junk => junk.length < 2 ^ 31

/-- Modelled from the spec: recoverable conditions collected into the
diagnostics list returned alongside a successful resolution (section 7). -/
inductive Diag where
  | formatError (e : FormatError)
  | badItemRecord
  | metadataWarning (iname : String)
  | structuralConflict (iname : String) (container : Option String)
  | structuralAnomaly (iname : String)
deriving DecidableEq, Repr

/-- Modelled from the spec: decode each raw record independently; a record
whose decoding fails is reported and skipped, and scanning continues with
the next record (section 4.2). -/
def decodeRecords (ds : List FieldDescriptor) :
    List (List Nat) → List (List Value) × List Diag
  | [] => ([], [])
  | r :: rest =>
    let tail := decodeRecords ds rest
    match decodeRecord ds r with
    | .ok vs => (vs :: tail.1, tail.2)
    | .error e => (tail.1, .formatError e :: tail.2)

/-- Well-known type GUID of Feature Datasets, as the little-endian value of
its 16 stored bytes (section 4.4). -/
def featureDatasetGuid : Nat := 0xB5EB324E72B904894257DCB574737149

/-- Well-known type GUID of Feature Classes (section 4.4). -/
def featureClassGuid : Nat := 0xFA9B5BEAEC2C229E4A03852C70737809

/-- Well-known type GUID of nonspatial tables (section 4.4). -/
def tableGuid : Nat := 0x65892B9167A4FAAA4C51789DCD06BC3B

/-- Well-known type GUID of Raster Datasets (section 4.4). -/
def rasterDatasetGuid : Nat := 0xB90437F25BD9298044A29CA95ED667A3

/-- Modelled from the spec: the fixed table of well-known type GUIDs, one
constant per Kind, from the format's public specification (section 4.4). -/
def knownTypeGuids : List (Nat × Kind) :=
  [ (featureDatasetGuid, .FeatureDataset),
    (featureClassGuid, .FeatureClass),
    (tableGuid, .Table),
    (rasterDatasetGuid, .RasterDataset) ]

/-- Modelled from the spec: the Item Classifier: a pure lookup in the fixed
GUID table; any GUID not present classifies as Unknown rather than failing
(section 4.4). -/
def classify (g : Nat) : Kind :=
  match knownTypeGuids.lookup g with
  | some k => k
  | none => .Unknown

/-- Modelled from the spec: one catalog item scanned from the items table
(section 3, CatalogItem). -/
structure CatalogItem where
  idGuid : Nat
  typeGuid : Nat
  name : String
  path : String
  xml : List Nat
deriving DecidableEq, Repr

/-- Modelled from the spec: optional structural metadata parsed from an
item's XML definition (section 3, ClassifiedItem; section 4.5). -/
structure Metadata where
  geometryType : Option Nat
  spatialRefId : Option Nat
  bandCount : Option Nat
deriving DecidableEq, Repr

/-- Metadata with every optional field empty. -/
def emptyMetadata : Metadata := ⟨none, none, none⟩

/-- Facts extracted from an XML definition, modelled as tagged pairs of
bytes; only the facts relevant to the item's kind are kept (section 4.5). -/
def extractFacts (k : Kind) : List Nat → Metadata → Metadata
  | tag :: v :: rest, m =>
    let m2 :=
      if tag = 1 then { m with spatialRefId := some v }
      else if tag = 2 ∧ (k = .FeatureClass ∨ k = .Table) then
        { m with geometryType := some v }
      else if tag = 3 ∧ k = .RasterDataset then { m with bandCount := some v }
      else m
    extractFacts k rest m2
  | _, m => m

/-- Modelled from the spec: the Metadata Parser: missing or malformed XML
yields empty metadata plus a MetadataWarning; the item stays in the tree
(section 4.5). -/
def parseMetadata (k : Kind) (iname : String) (xml : List Nat) :
    Metadata × List Diag :=
  if xml.isEmpty then (emptyMetadata, [.metadataWarning iname])
  else (extractFacts k xml emptyMetadata, [])

/-- Modelled from the spec: a catalog item with its resolved Kind and parsed
metadata (section 3, ClassifiedItem).  Unknown items carry no parsed
metadata (section 4.4). -/
structure ClassifiedItem where
  item : CatalogItem
  kind : Kind
  meta : Metadata
deriving DecidableEq, Repr

/-- Classification of one catalog item: resolve the Kind, then parse
metadata only for known kinds (sections 4.4 and 4.5). -/
def classifyItem (it : CatalogItem) : ClassifiedItem × List Diag :=
  match classify it.typeGuid with
  | .Unknown => (⟨it, .Unknown, emptyMetadata⟩, [])
  | k =>
    let pm := parseMetadata k it.name it.xml
    (⟨it, k, pm.1⟩, pm.2)

/-- Classification of the scanned item list, collecting warnings. -/
def classifyItems : List CatalogItem → List ClassifiedItem × List Diag
  | [] => ([], [])
  | it :: rest =>
    let hd := classifyItem it
    let tl := classifyItems rest
    (hd.1 :: tl.1, hd.2 ++ tl.2)

/-- Split a character list at slashes. -/
def splitOnSlash : List Char → List (List Char)
  | [] => [[]]
  | c :: rest =>
    match splitOnSlash rest with
    | [] => [[c]]
    | s :: ss => if c = '/' then [] :: s :: ss else (c :: s) :: ss

/-- Modelled from the spec: the slash-delimited segments of a catalog path
(section 4.6). -/
def pathSegs (p : String) : List String :=
  (splitOnSlash p.data).map List.asString

/-- Modelled from the spec: the parent segment of a catalog path: the
segment just before the item's own trailing name, when there is one
(section 4.6). -/
def parentOf (p : String) : Option String :=
  (pathSegs p).dropLast.getLast?

/-- The container an item is filed under: Feature Datasets always hang off
the sentinel root; other items go under their path's parent segment, or the
root when it has none (section 4.6). -/
def containerOf (ci : ClassifiedItem) : Option String :=
  match ci.kind with
  | .FeatureDataset => none
  | _ => parentOf ci.item.path

/-- A side-table entry of the item tree: the classified item plus the flags
the Hierarchy Builder may set (section 4.6). -/
structure TreeEntry where
  classified : ClassifiedItem
  ambiguous : Bool
  anomalous : Bool
deriving DecidableEq, Repr

/-- Modelled from the spec: the ItemTree: container names (the sentinel root
is the absent name) to ordered child names, plus the side table from name to
entry (section 3, ItemTree). -/
structure ItemTree where
  containers : List (Option String × List String)
  items : List (String × TreeEntry)
deriving DecidableEq, Repr

/-- The tree holding only the empty sentinel root container. -/
def emptyTree : ItemTree := ⟨[(none, [])], []⟩

/-- Ordered children of a container, empty when the container is absent. -/
def childrenOf (t : ItemTree) (c : Option String) : List String :=
  (t.containers.lookup c).getD []

/-- Append a child name to a container, creating the container at the end of
the list on first use. -/
def addChild (cs : List (Option String × List String)) (c : Option String)
    (n : String) : List (Option String × List String) :=
  match cs with
  | [] => [(c, [n])]
  | (c', ns) :: rest =>
    if c' == c then (c', ns ++ [n]) :: rest else (c', ns) :: addChild rest c n

/-- Add an empty container if it is not already present. -/
def ensureContainer (cs : List (Option String × List String))
    (c : Option String) : List (Option String × List String) :=
  match cs.lookup c with
  | some _ => cs
  | none => cs ++ [(c, [])]

/-- Modelled from the spec: one step of the Hierarchy Builder: file the item
under its container in encounter order; report a StructuralConflict and mark
the second occurrence ambiguous on a name collision, keeping both; flag (not
renest) a Feature Dataset whose path claims a parent (section 4.6). -/
def buildStep (st : ItemTree × List Diag) (ci : ClassifiedItem) :
    ItemTree × List Diag :=
  let t := st.1
  let c := containerOf ci
  let n := ci.item.name
  let amb := (childrenOf t c).contains n
  let anom := ci.kind == .FeatureDataset && (parentOf ci.item.path).isSome
  let conts := addChild t.containers c n
  let conts2 := if ci.kind == .FeatureDataset then ensureContainer conts (some n) else conts
  let t2 : ItemTree := ⟨conts2, t.items ++ [(n, ⟨ci, amb, anom⟩)]⟩
  let d2 := st.2 ++ (if amb then [Diag.structuralConflict n c] else []) ++
    (if anom then [Diag.structuralAnomaly n] else [])
  (t2, d2)

/-- Modelled from the spec: the Hierarchy Builder: fold the classified items
in items-table scan order into the ItemTree (section 4.6). -/
def buildTree (cis : List ClassifiedItem) : ItemTree × List Diag :=
  cis.foldl buildStep (emptyTree, [])

/-- Pair up little-endian double-byte text bytes into code units
(section 4.2: Text is double-byte-per-character). -/
def unitsOfBytes : List Nat → List Nat
  | lo :: hi :: rest => (lo + 256 * hi) :: unitsOfBytes rest
  | _ => []

/-- Decode double-byte text bytes to a standard string (section 4.2). -/
def textOfBytes (bs : List Nat) : String :=
  ((unitsOfBytes bs).map Char.ofNat).asString

/-- Double-byte encoding of a string, inverse to `textOfBytes` for text in
the basic plane. -/
def bytesOfText (s : String) : List Nat :=
  (s.data.map Char.toNat).flatMap fun u => [u % 256, u / 256 % 256]

/-- Modelled from the spec: the field layout of the items table: item GUID,
type GUID, name, catalog path, XML definition (section 3, CatalogItem). -/
def itemsFields : List FieldDescriptor :=
  [ ⟨"UUID", .Guid, false⟩,
    ⟨"Type", .Guid, false⟩,
    ⟨"Name", .Text, false⟩,
    ⟨"Path", .Text, false⟩,
    ⟨"Definition", .XML, true⟩ ]

/-- Modelled from the spec: build a CatalogItem from a decoded items-table
record; records of any other shape are not items (section 3). -/
def itemFromRecord : List Value → Option CatalogItem
  | [.intVal .Guid idg, .intVal .Guid tg, .bytesVal .Text nb, .bytesVal .Text pb, defv] =>
    let xml :=
      match defv with
      | .bytesVal .XML bs => bs
      | _ => []
    some ⟨idg, tg, textOfBytes nb, textOfBytes pb, xml⟩
  | _ => none

/-- Catalog items of the decoded record list; a record that is not an item
is reported and skipped (section 3). -/
def itemsOfRecords : List (List Value) → List CatalogItem × List Diag
  | [] => ([], [])
  | vs :: rest =>
    let tl := itemsOfRecords rest
    match itemFromRecord vs with
    | some it => (it :: tl.1, tl.2)
    | none => (tl.1, .badItemRecord :: tl.2)

/-- Modelled from the spec: fatal resolution errors (section 7). -/
inductive CatalogError where
  | catalogNotFound
  | format (e : FormatError)
deriving DecidableEq, Repr

/-- Modelled from the spec: a geodatabase directory as the resolver sees it:
the master catalog table (when present) and the items table with its
optional companion index (sections 4.3 and 6). -/
structure GdbDirectory where
  master : Option (TableHeader × List Nat)
  itemsHeader : TableHeader
  itemsIndex : Option IndexFile
  itemsBytes : List Nat
deriving DecidableEq, Repr

/-- Modelled from the spec: the System Catalog Locator: the master catalog
must exist and its self-describing first record must decode, else resolution
fails with CatalogNotFoundError; unreadable tables are fatal (section 4.3). -/
def locateCatalog (dir : GdbDirectory) : Except CatalogError Unit :=
  match dir.master with
  | none => .error .catalogNotFound
  | some m =>
    match readTable m.1 none m.2 with
    | .error e => .error (.format e)
    | .ok raws =>
      match raws.head? with
      | none => .error .catalogNotFound
      | some r =>
        match decodeRecord m.1.fields r with
        | .ok _ => .ok ()
        | .error _ => .error .catalogNotFound

/-- The classified items scanned from a directory's items table, in scan
order, with the diagnostics gathered along the way. -/
def classifiedStage (dir : GdbDirectory) : List ClassifiedItem × List Diag :=
  match readTable dir.itemsHeader dir.itemsIndex dir.itemsBytes with
  | .error _ => ([], [])
  | .ok raws =>
    let recs := decodeRecords dir.itemsHeader.fields raws
    let its := itemsOfRecords recs.1
    let cls := classifyItems its.1
    (cls.1, recs.2 ++ its.2 ++ cls.2)

/-- Modelled from the spec: `resolve_catalog`, the sole entry point: locate
the system catalog, scan and decode the items table, classify, parse
metadata, and build the ItemTree; fatal errors abort, recoverable conditions
are returned as diagnostics beside the tree (sections 6 and 7). -/
def resolve_catalog (dir : GdbDirectory) :
    Except CatalogError (ItemTree × List Diag) :=
  match locateCatalog dir with
  | .error e => .error e
  | .ok _ =>
    match readTable dir.itemsHeader dir.itemsIndex dir.itemsBytes with
    | .error e => .error (.format e)
    | .ok _ =>
      let cls := classifiedStage dir
      let tr := buildTree cls.1
      .ok (tr.1, cls.2 ++ tr.2)

/-- Modelled from the spec: the user-facing FeatureClass, reduced to the
facts the claims need: its coordinate reference system and a row payload.
The module source is missing from the snapshot; behavior follows the
database-structure notebook. -/
structure FeatureClass where
  crs : String
  rows : Nat
deriving DecidableEq, Repr

/-- Error raised when a FeatureClass's CRS conflicts with its dataset's. -/
inductive CrsError where
  | crsMismatch
deriving DecidableEq, Repr

/-- Modelled from the spec: the user-facing FeatureDataset: an optional CRS
and named feature classes.  Created empty it has no CRS. -/
structure FeatureDataset where
  crs : Option String
  classes : List (String × FeatureClass)
deriving DecidableEq, Repr

/-- A FeatureDataset created empty: no CRS, no classes. -/
def FeatureDataset.empty : FeatureDataset := ⟨none, []⟩

/-- Replace the value stored under a key, appending when absent. -/
def updateAssoc {α β : Type} [BEq α] (l : List (α × β)) (k : α) (v : β) :
    List (α × β) :=
  match l with
  | [] => [(k, v)]
  | (k', v') :: rest =>
    if k' == k then (k', v) :: rest else (k', v') :: updateAssoc rest k v

/-- Modelled from the spec: FeatureDataset item assignment: an empty dataset
adopts the CRS of the first FeatureClass added; afterwards a mismatching CRS
raises an error (database-structure notebook). -/
def fdsSetItem (fds : FeatureDataset) (n : String) (fc : FeatureClass) :
    Except CrsError FeatureDataset :=
  match fds.crs with
  | none => .ok ⟨some fc.crs, updateAssoc fds.classes n fc⟩
  | some c =>
    if c = fc.crs then .ok ⟨some c, updateAssoc fds.classes n fc⟩
    else .error .crsMismatch

/-- Assignment as executed: a raised error leaves the dataset unchanged. -/
def trySet (fds : FeatureDataset) (n : String) (fc : FeatureClass) :
    FeatureDataset :=
  match fdsSetItem fds n fc with
  | .ok f => f
  | .error _ => fds

/-- A dataset built by a sequence of item assignments starting empty. -/
def applyOps (ops : List (String × FeatureClass)) : FeatureDataset :=
  ops.foldl (fun f p => trySet f p.1 p.2) FeatureDataset.empty

/-- Modelled from the spec: the user-facing GeoDatabase: feature datasets
keyed by name; the dataset named `none` holds standalone classes. -/
structure GeoDatabase where
  datasets : List (Option String × FeatureDataset)
deriving DecidableEq, Repr

/-- A value assigned to a GeoDatabase key. -/
inductive GdbValue where
  | fds (d : FeatureDataset)
  | fc (c : FeatureClass)
deriving DecidableEq, Repr

/-- Modelled from the spec: GeoDatabase item assignment: a FeatureDataset is
stored under its key; a FeatureClass assigned directly is placed inside the
FeatureDataset named `none`, created on demand (database-structure
notebook). -/
def gdbSetItem (g : GeoDatabase) (k : String) :
    GdbValue → Except CrsError GeoDatabase
  | .fds d => .ok ⟨updateAssoc g.datasets (some k) d⟩
  | .fc c =>
    let cur := (g.datasets.lookup none).getD FeatureDataset.empty
    match fdsSetItem cur k c with
    | .ok d2 => .ok ⟨updateAssoc g.datasets none d2⟩
    | .error e => .error e

/-- The all-classes-share-the-dataset-CRS invariant (database-structure
notebook). -/
def fdsInv (fds : FeatureDataset) : Prop :=
  ∀ e ∈ fds.classes, some e.2.crs = fds.crs

/-- Default side-table entry used when stating positional facts. -/
def dfltEntry : String × TreeEntry :=
  ("", ⟨⟨⟨0, 0, "", "", []⟩, .Unknown, emptyMetadata⟩, false, false⟩)

/-- A minimal valid master catalog: one live record that decodes under a
zero-field header, so the self-reference check passes. -/
def sampleMaster : TableHeader × List Nat :=
  (⟨gdbMagic, 1, []⟩, encodeSlots [.live [0]])

/-- Items-table record of a Feature Dataset named Transportation. -/
def transportationRecord : List Value :=
  [ .intVal .Guid 1, .intVal .Guid featureDatasetGuid,
    .bytesVal .Text (bytesOfText "Transportation"),
    .bytesVal .Text (bytesOfText "Transportation"), .null .XML ]

/-- Items-table record of a Feature Class named Roads inside
Transportation. -/
def roadsRecord : List Value :=
  [ .intVal .Guid 2, .intVal .Guid featureClassGuid,
    .bytesVal .Text (bytesOfText "Roads"),
    .bytesVal .Text (bytesOfText "Transportation/Roads"), .null .XML ]

/-- A concrete two-item geodatabase directory: the Transportation dataset
containing the Roads feature class. -/
def sampleDir : GdbDirectory :=
  ⟨some sampleMaster, ⟨gdbMagic, 2, itemsFields⟩, none,
    encodeSlots [.live (encodeRecord transportationRecord),
      .live (encodeRecord roadsRecord)]⟩

/-- A directory whose items table holds zero records. -/
def emptyItemsDir : GdbDirectory :=
  ⟨some sampleMaster, ⟨gdbMagic, 0, itemsFields⟩, none, []⟩

/-- First of two colliding standalone items named Dup. -/
def dupA : ClassifiedItem := ⟨⟨1, 0, "Dup", "Dup", []⟩, .Table, emptyMetadata⟩

/-- Second of two colliding standalone items named Dup. -/
def dupB : ClassifiedItem := ⟨⟨2, 0, "Dup", "Dup", []⟩, .Table, emptyMetadata⟩

/-- Twelve live one-byte records, as in the index-mismatch scenario. -/
def twelveSlots : List Slot := (List.range 12).map fun k => .live [k + 1]

/-- An index file declaring ten records while the table header declares
twelve. -/
def tenIndex : IndexFile := ⟨10, List.range 10⟩

instance {ε α : Type} [DecidableEq ε] [DecidableEq α] :
    DecidableEq (Except ε α) := fun a b =>
  match a, b with
  | .ok x, .ok y =>
    if h : x = y then .isTrue (by rw [h]) else .isFalse (by simp [h])
  | .error x, .error y =>
    if h : x = y then .isTrue (by rw [h]) else .isFalse (by simp [h])
  | .ok _, .error _ => .isFalse (by simp)
  | .error _, .ok _ => .isFalse (by simp)

theorem length_leBytes (w n : Nat) : (leBytes w n).length = w := by
  induction w generalizing n with
  | zero => rfl
  | succ k ih => simp [leBytes, ih]

theorem leVal_leBytes (w n : Nat) (h : n < 256 ^ w) : leVal (leBytes w n) = n := by
  induction w generalizing n with
  | zero => simp at h; simp [leBytes, leVal, h]
  | succ k ih =>
    have hdiv : n / 256 < 256 ^ k := by
      rw [Nat.div_lt_iff_lt_mul (by norm_num)]
      calc n < 256 ^ (k + 1) := h
        _ = 256 ^ k * 256 := by ring
    have := ih (n / 256) hdiv
    simp only [leBytes, leVal, List.foldr_cons] at this ⊢
    omega

theorem readBytes_append (k : Nat) (l r : List Nat) (h : l.length = k) :
    readBytes k (l ++ r) = some (l, r) := by
  subst h
  simp [readBytes, List.take_left, List.drop_left]

theorem readVarLen_encode (len : Nat) (r : List Nat) (h : len < 128 * 65536) :
    readVarLen (encodeVarLen len ++ r) = some (len, r) := by
  by_cases hs : len < 128
  · simp [encodeVarLen, hs, readVarLen]
  · have : encodeVarLen len = [128 + len % 128, len / 128 % 256, len / 128 / 256] := by
      simp [encodeVarLen, hs]
    rw [this]
    simp only [List.cons_append, readVarLen, List.nil_append]
    have hge : ¬ (128 + len % 128 < 128) := by omega
    simp only [hge, if_false]
    have hx : 128 + len % 128 - 128 + 128 * (len / 128 % 256 + 256 * (len / 128 / 256)) = len := by
      omega
    rw [hx]

theorem testBit_bitsByte (l : List Bool) (i : Nat) :
    (bitsByte l).testBit i = l.getD i false := by
  induction l generalizing i with
  | nil => simp [bitsByte]
  | cons b rest ih =>
    cases i with
    | zero =>
      simp only [bitsByte, Nat.testBit_zero, List.getD_cons_zero]
      cases b <;> simp <;> omega
    | succ j =>
      simp only [bitsByte, Nat.testBit_succ, List.getD_cons_succ]
      have hdiv : ((if b then 1 else 0) + 2 * bitsByte rest) / 2 = bitsByte rest := by
        cases b <;> simp <;> omega
      rw [hdiv, ih]

theorem shape_length_lt_eight (bs : List Bool) (hne : bs = [] → False)
    (hshort : ∀ (b0 b1 b2 b3 b4 b5 b6 b7 : Bool) (rest : List Bool),
      bs = b0 :: b1 :: b2 :: b3 :: b4 :: b5 :: b6 :: b7 :: rest → False) :
    0 < bs.length ∧ bs.length < 8 := by
  rcases bs with _ | ⟨b0, _ | ⟨b1, _ | ⟨b2, _ | ⟨b3, _ | ⟨b4, _ | ⟨b5, _ |
    ⟨b6, _ | ⟨b7, rest⟩⟩⟩⟩⟩⟩⟩⟩
  · exact absurd rfl (by intro he; exact hne he)
  · simp
  · simp
  · simp
  · simp
  · simp
  · simp
  · simp
  · exact absurd rfl (by intro he; exact hshort b0 b1 b2 b3 b4 b5 b6 b7 rest he)

theorem length_maskBytes (bs : List Bool) :
    (maskBytes bs).length = (bs.length + 7) / 8 := by
  induction bs using maskBytes.induct with
  | case1 => simp [maskBytes]
  | case2 b0 b1 b2 b3 b4 b5 b6 b7 rest ih =>
    simp only [maskBytes, List.length_cons, ih]
    omega
  | case3 bs hne hshort =>
    obtain ⟨hpos, hlen⟩ := shape_length_lt_eight bs hne hshort
    have hmb : maskBytes bs = [bitsByte bs] := by
      rcases bs with _ | ⟨b0, _ | ⟨b1, _ | ⟨b2, _ | ⟨b3, _ | ⟨b4, _ | ⟨b5, _ |
        ⟨b6, _ | ⟨b7, rest⟩⟩⟩⟩⟩⟩⟩⟩
      · exact absurd rfl (by intro he; exact hne he)
      · rfl
      · rfl
      · rfl
      · rfl
      · rfl
      · rfl
      · rfl
      · exact absurd rfl (by intro he; exact hshort b0 b1 b2 b3 b4 b5 b6 b7 rest he)
    rw [hmb]
    simp only [List.length_singleton]
    omega

theorem bitSet_maskBytes (bs : List Bool) (i : Nat) :
    bitSet (maskBytes bs) i = bs.getD i false := by
  induction bs using maskBytes.induct generalizing i with
  | case1 => simp [maskBytes, bitSet]
  | case2 b0 b1 b2 b3 b4 b5 b6 b7 rest ih =>
    by_cases hlt : i < 8
    · have h8 : i / 8 = 0 := by omega
      have hm : i % 8 = i := by omega
      simp only [maskBytes, bitSet, h8, hm, List.getD_cons_zero]
      rw [testBit_bitsByte]
      interval_cases i <;> rfl
    · have h8 : i / 8 = (i - 8) / 8 + 1 := by omega
      have hm : i % 8 = (i - 8) % 8 := by omega
      simp only [maskBytes, bitSet, h8, hm, List.getD_cons_succ]
      have hih := ih (i - 8)
      simp only [bitSet] at hih
      rw [hih]
      have hsplit : ∀ k, (b0 :: b1 :: b2 :: b3 :: b4 :: b5 :: b6 :: b7 :: rest).getD
          (k + 8) false = rest.getD k false := by
        intro k
        rfl
      have hi : i = (i - 8) + 8 := by omega
      rw [hi, hsplit]
      simp only [Nat.add_sub_cancel]
  | case3 bs hne hshort =>
    obtain ⟨hpos, hlen⟩ := shape_length_lt_eight bs hne hshort
    have hmb : maskBytes bs = [bitsByte bs] := by
      rcases bs with _ | ⟨b0, _ | ⟨b1, _ | ⟨b2, _ | ⟨b3, _ | ⟨b4, _ | ⟨b5, _ |
        ⟨b6, _ | ⟨b7, rest⟩⟩⟩⟩⟩⟩⟩⟩
      · exact absurd rfl (by intro he; exact hne he)
      · rfl
      · rfl
      · rfl
      · rfl
      · rfl
      · rfl
      · rfl
      · exact absurd rfl (by intro he; exact hshort b0 b1 b2 b3 b4 b5 b6 b7 rest he)
    rw [hmb]
    by_cases hlt : i < 8
    · have h8 : i / 8 = 0 := by omega
      have hm : i % 8 = i := by omega
      simp only [maskBytes, bitSet, h8, hm, List.getD_cons_zero]
      exact testBit_bitsByte bs i
    · have h8 : 1 ≤ i / 8 := by omega
      have hmask : ([bitsByte bs] : List Nat).getD (i / 8) 0 = 0 := by
        rw [List.getD_eq_getElem?_getD]
        rw [List.getElem?_eq_none (by simpa using h8)]
        rfl
      simp only [maskBytes, bitSet, hmask, Nat.zero_testBit]
      rw [List.getD_eq_getElem?_getD]
      rw [List.getElem?_eq_none (by omega)]
      rfl

theorem decodeField_encodeValue (t : FieldType) (v : Value) (r : List Nat)
    (hp : v.isPresent = true) (hc : valConforms t v = true) :
    decodeField t (encodeValue v ++ r) = .ok (v, r) := by
  cases v with
  | null t' => simp [Value.isPresent] at hp
  | intVal t' n =>
    simp only [valConforms, Bool.and_eq_true, decide_eq_true_eq] at hc
    obtain ⟨rfl, hw⟩ := hc
    cases hfw : t'.fixedWidth with
    | none => rw [hfw] at hw; simp at hw
    | some w =>
      rw [hfw] at hw
      simp only [decide_eq_true_eq] at hw
      simp only [encodeValue, hfw, Option.getD_some, decodeField]
      rw [readBytes_append w _ _ (length_leBytes w n)]
      simp [leVal_leBytes w n hw]
  | bytesVal t' bs =>
    simp only [valConforms, Bool.and_eq_true, decide_eq_true_eq] at hc
    obtain ⟨⟨rfl, hfw⟩, hlen⟩ := hc
    simp only [encodeValue, decodeField, hfw, List.append_assoc]
    rw [readVarLen_encode bs.length _ hlen]
    simp [readBytes_append bs.length bs r rfl]

theorem recConforms_length (ds : List FieldDescriptor) (vs : List Value)
    (h : recConforms ds vs = true) : ds.length = vs.length := by
  induction ds generalizing vs with
  | nil => cases vs with
    | nil => rfl
    | cons v vs => simp [recConforms] at h
  | cons d ds ih =>
    cases vs with
    | nil => simp [recConforms] at h
    | cons v vs =>
      simp only [recConforms, Bool.and_eq_true] at h
      simp [ih vs h.2]

theorem decodeFieldsAux_encode (mask : List Nat) (ds : List FieldDescriptor)
    (vs : List Value) (i : Nat) (extra : List Nat)
    (hc : recConforms ds vs = true)
    (hbit : ∀ j, j < vs.length →
      bitSet mask (i + j) = (vs.getD j (.null .Text)).isPresent) :
    decodeFieldsAux mask ds i ((vs.map encodeValue).flatten ++ extra) = .ok vs := by
  induction ds generalizing vs i with
  | nil =>
    cases vs with
    | nil => rfl
    | cons v vs => simp [recConforms] at hc
  | cons d ds ih =>
    cases vs with
    | nil => simp [recConforms] at hc
    | cons v vs =>
      simp only [recConforms, Bool.and_eq_true] at hc
      obtain ⟨hcv, hcr⟩ := hc
      have hb0 := hbit 0 (by simp)
      simp only [Nat.add_zero, List.getD_cons_zero] at hb0
      have hshift : ∀ j, j < vs.length →
          bitSet mask (i + 1 + j) = (vs.getD j (.null .Text)).isPresent := by
        intro j hj
        have h1 := hbit (j + 1) (by simp; omega)
        have h2 : i + 1 + j = i + (j + 1) := by omega
        rw [h2]
        simpa using h1
      cases hv : v.isPresent with
      | true =>
        rw [hv] at hb0
        simp only [decodeFieldsAux, hb0, if_true, List.map_cons, List.flatten_cons,
          List.append_assoc]
        rw [decodeField_encodeValue d.ftype v _ hv hcv]
        simp [ih vs (i + 1) hcr hshift]
      | false =>
        rw [hv] at hb0
        have hnull : v = .null d.ftype := by
          cases v with
          | null t' =>
            simp only [valConforms, decide_eq_true_eq] at hcv
            rw [hcv]
          | intVal t' n => simp [Value.isPresent] at hv
          | bytesVal t' bs => simp [Value.isPresent] at hv
        simp only [decodeFieldsAux, hb0, Bool.false_eq_true, if_false, List.map_cons,
          List.flatten_cons]
        rw [hnull]
        simp only [encodeValue, List.nil_append]
        simp [ih vs (i + 1) hcr hshift]

theorem decodeRecord_encodeRecord (ds : List FieldDescriptor) (vs : List Value)
    (hc : recConforms ds vs = true) :
    decodeRecord ds (encodeRecord vs) = .ok vs := by
  have hlen : (maskBytes (vs.map Value.isPresent)).length = (ds.length + 7) / 8 := by
    rw [length_maskBytes, List.length_map, recConforms_length ds vs hc]
  simp only [decodeRecord, encodeRecord]
  rw [readBytes_append _ _ _ hlen]
  have hbit : ∀ j, j < vs.length →
      bitSet (maskBytes (vs.map Value.isPresent)) (0 + j) =
        (vs.getD j (.null .Text)).isPresent := by
    intro j hj
    rw [Nat.zero_add, bitSet_maskBytes]
    rw [List.getD_eq_getElem?_getD, List.getElem?_map, List.getD_eq_getElem?_getD]
    cases hx : vs[j]? with
    | none => simp [List.getElem?_eq_none_iff] at hx; omega
    | some v => simp
  have := decodeFieldsAux_encode (maskBytes (vs.map Value.isPresent)) ds vs 0 [] hc hbit
  rw [List.append_nil] at this
  exact this

theorem decodeFieldsAux_null (mask : List Nat) (ds : List FieldDescriptor)
    (i : Nat) (payload : List Nat) (vs : List Value) (j : Nat)
    (h : decodeFieldsAux mask ds i payload = .ok vs)
    (hj : j < ds.length) (hb : bitSet mask (i + j) = false) :
    vs.getD j (.null .Text) = .null ((ds.getD j ⟨"", .Text, true⟩).ftype) := by
  induction ds generalizing i payload vs j with
  | nil => simp at hj
  | cons d ds ih =>
    by_cases hb0 : bitSet mask i
    · simp only [decodeFieldsAux, hb0, if_true] at h
      cases hdf : decodeField d.ftype payload with
      | error e => rw [hdf] at h; simp at h
      | ok p =>
        obtain ⟨v, p2⟩ := p
        rw [hdf] at h
        simp only [] at h
        cases htl : decodeFieldsAux mask ds (i + 1) p2 with
        | error e => rw [htl] at h; simp at h
        | ok vs2 =>
          rw [htl] at h
          simp only [Except.ok.injEq] at h
          subst h
          cases j with
          | zero => rw [Nat.add_zero] at hb; rw [hb0] at hb; simp at hb
          | succ k =>
            simp only [List.getD_cons_succ]
            apply ih (i + 1) p2 vs2 k htl (by simpa using hj)
            have heq : i + 1 + k = i + (k + 1) := by omega
            rw [heq]
            exact hb
    · simp only [decodeFieldsAux, hb0, Bool.false_eq_true, if_false] at h
      cases htl : decodeFieldsAux mask ds (i + 1) payload with
      | error e => rw [htl] at h; simp at h
      | ok vs2 =>
        rw [htl] at h
        simp only [Except.ok.injEq] at h
        subst h
        cases j with
        | zero => simp
        | succ k =>
          simp only [List.getD_cons_succ]
          apply ih (i + 1) payload vs2 k htl (by simpa using hj)
          have heq : i + 1 + k = i + (k + 1) := by omega
          rw [heq]
          exact hb

theorem decodeRecord_null (ds : List FieldDescriptor) (bytes : List Nat)
    (vs : List Value) (j : Nat)
    (h : decodeRecord ds bytes = .ok vs) (hj : j < ds.length)
    (hb : bitSet (bytes.take ((ds.length + 7) / 8)) j = false) :
    vs.getD j (.null .Text) = .null ((ds.getD j ⟨"", .Text, true⟩).ftype) := by
  unfold decodeRecord at h
  unfold readBytes at h
  by_cases hk : (ds.length + 7) / 8 ≤ bytes.length
  · simp only [hk, if_true] at h
    exact decodeFieldsAux_null _ _ 0 _ _ j h hj (by simpa using hb)
  · simp [hk] at h

theorem decodeRecords_skip_error (ds : List FieldDescriptor)
    (raws1 : List (List Nat)) (r : List Nat) (raws2 : List (List Nat))
    (e : FormatError) (h : decodeRecord ds r = .error e) :
    (decodeRecords ds (raws1 ++ r :: raws2)).1 =
      (decodeRecords ds (raws1 ++ raws2)).1 ∧
    Diag.formatError e ∈ (decodeRecords ds (raws1 ++ r :: raws2)).2 := by
  induction raws1 with
  | nil =>
    constructor
    · show ((decodeRecords ds (r :: raws2)).1 : List (List Value)) = _
      show (match decodeRecord ds r with
        | .ok vs => (vs :: (decodeRecords ds raws2).1, (decodeRecords ds raws2).2)
        | .error e => ((decodeRecords ds raws2).1,
            Diag.formatError e :: (decodeRecords ds raws2).2)).1 = _
      rw [h]
      simp
    · show Diag.formatError e ∈ (match decodeRecord ds r with
        | .ok vs => (vs :: (decodeRecords ds raws2).1, (decodeRecords ds raws2).2)
        | .error e => ((decodeRecords ds raws2).1,
            Diag.formatError e :: (decodeRecords ds raws2).2)).2
      rw [h]
      exact List.mem_cons_self _ _
  | cons q raws1 ih =>
    simp only [List.cons_append, decodeRecords]
    cases hq : decodeRecord ds q with
    | ok vs =>
      constructor
      · show vs :: (decodeRecords ds (raws1 ++ r :: raws2)).1 =
          vs :: (decodeRecords ds (raws1 ++ raws2)).1
        rw [ih.1]
      · show Diag.formatError e ∈ (decodeRecords ds (raws1 ++ r :: raws2)).2
        exact ih.2
    | error e2 =>
      constructor
      · show ((decodeRecords ds (raws1 ++ r :: raws2)).1 : List (List Value)) =
          (decodeRecords ds (raws1 ++ raws2)).1
        exact ih.1
      · show Diag.formatError e ∈
          Diag.formatError e2 :: (decodeRecords ds (raws1 ++ r :: raws2)).2
        exact List.mem_cons_of_mem _ ih.2

theorem decodeRecords_sound (ds : List FieldDescriptor)
    (raws : List (List Nat)) (vs : List Value)
    (h : vs ∈ (decodeRecords ds raws).1) :
    ∃ r ∈ raws, decodeRecord ds r = .ok vs := by
  induction raws with
  | nil => simp [decodeRecords] at h
  | cons q raws ih =>
    simp only [decodeRecords] at h
    cases hq : decodeRecord ds q with
    | ok vs2 =>
      rw [hq] at h
      simp only [List.mem_cons] at h
      cases h with
      | inl heq => exact ⟨q, List.mem_cons_self _ _, by rw [hq, heq]⟩
      | inr hmem =>
        obtain ⟨r, hr, hok⟩ := ih hmem
        exact ⟨r, List.mem_cons_of_mem _ hr, hok⟩
    | error e2 =>
      rw [hq] at h
      obtain ⟨r, hr, hok⟩ := ih h
      exact ⟨r, List.mem_cons_of_mem _ hr, hok⟩

theorem decodeField_truncated (t : FieldType) (w : Nat) (payload : List Nat)
    (hw : t.fixedWidth = some w) (hshort : payload.length < w) :
    decodeField t payload = .error .truncated := by
  simp only [decodeField, hw, readBytes]
  have : ¬ w ≤ payload.length := by omega
  simp [this]

theorem linearScanAux_fuel (f1 : Nat) : ∀ (f2 : Nat) (bytes : List Nat),
    bytes.length ≤ f1 → bytes.length ≤ f2 →
    linearScanAux f1 bytes = linearScanAux f2 bytes := by
  induction f1 with
  | zero =>
    intro f2 bytes h1 h2
    have h4 : ¬ 4 ≤ bytes.length := by omega
    cases f2 with
    | zero => rfl
    | succ g => simp [linearScanAux, h4]
  | succ f ih =>
    intro f2 bytes h1 h2
    cases f2 with
    | zero =>
      have h4 : ¬ 4 ≤ bytes.length := by omega
      simp [linearScanAux, h4]
    | succ g =>
      simp only [linearScanAux]
      by_cases h4 : 4 ≤ bytes.length
      · simp only [h4, if_true]
        have hd : (bytes.drop 4).length = bytes.length - 4 := by
          simp [List.length_drop]
        by_cases hz : leVal (bytes.take 4) = 0
        · simp only [hz, if_true]
          apply ih
          · omega
          · omega
        · simp only [hz, if_false]
          by_cases hlt : leVal (bytes.take 4) < 2 ^ 31
          · simp only [hlt, if_true]
            rw [ih g _ (by simp [List.length_drop]; omega)
              (by simp [List.length_drop]; omega)]
          · simp only [hlt, if_false]
            rw [ih g _ (by simp [List.length_drop]; omega)
              (by simp [List.length_drop]; omega)]
      · simp [h4]

theorem linearScan_step (bytes : List Nat) :
    linearScan bytes =
      if 4 ≤ bytes.length then
        (if leVal (bytes.take 4) = 0 then linearScan (bytes.drop 4)
         else if leVal (bytes.take 4) < 2 ^ 31 then
           (bytes.drop 4).take (leVal (bytes.take 4)) ::
             linearScan ((bytes.drop 4).drop (leVal (bytes.take 4)))
         else linearScan ((bytes.drop 4).drop (2 ^ 32 - leVal (bytes.take 4))))
      else [] := by
  by_cases h4 : 4 ≤ bytes.length
  · rw [if_pos h4]
    obtain ⟨f, hf⟩ : ∃ f, bytes.length = f + 1 := ⟨bytes.length - 1, by omega⟩
    have hstep : linearScan bytes =
        (if leVal (bytes.take 4) = 0 then linearScanAux f (bytes.drop 4)
         else if leVal (bytes.take 4) < 2 ^ 31 then
           (bytes.drop 4).take (leVal (bytes.take 4)) ::
             linearScanAux f ((bytes.drop 4).drop (leVal (bytes.take 4)))
         else linearScanAux f ((bytes.drop 4).drop (2 ^ 32 - leVal (bytes.take 4)))) := by
      unfold linearScan
      rw [hf]
      simp only [linearScanAux, h4, if_true]
    rw [hstep]
    by_cases hz : leVal (bytes.take 4) = 0
    · rw [if_pos hz, if_pos hz]
      show linearScanAux f (bytes.drop 4) =
        linearScanAux (bytes.drop 4).length (bytes.drop 4)
      apply linearScanAux_fuel
      · simp [List.length_drop]; omega
      · simp [List.length_drop]
    · rw [if_neg hz, if_neg hz]
      by_cases hlt : leVal (bytes.take 4) < 2 ^ 31
      · rw [if_pos hlt, if_pos hlt]
        rw [linearScanAux_fuel f ((bytes.drop 4).drop (leVal (bytes.take 4))).length _
          (by simp [List.length_drop]; omega) (by omega)]
        rfl
      · rw [if_neg hlt, if_neg hlt]
        rw [linearScanAux_fuel f
          ((bytes.drop 4).drop (2 ^ 32 - leVal (bytes.take 4))).length _
          (by simp [List.length_drop]; omega) (by omega)]
        rfl
  · rw [if_neg h4]
    unfold linearScan
    cases hl : bytes.length with
    | zero => rfl
    | succ k => simp [linearScanAux, h4]

theorem linearScan_encodeSlot (s : Slot) (rest : List Nat)
    (hc : slotConforms s = true) :
    linearScan (encodeSlot s ++ rest) =
      (match s with
        | .live p => p :: linearScan rest
        | .deleted _ => linearScan rest) := by
  cases s with
  | live p =>
    simp only [slotConforms, Bool.and_eq_true, decide_eq_true_eq] at hc
    obtain ⟨hpos, hlt⟩ := hc
    simp only [encodeSlot, List.append_assoc]
    rw [linearScan_step]
    have hlen4 : (leBytes 4 p.length).length = 4 := length_leBytes 4 _
    have hge : 4 ≤ ((leBytes 4 p.length) ++ (p ++ rest)).length := by
      simp [hlen4]
    rw [if_pos hge]
    rw [List.take_left' hlen4, List.drop_left' hlen4]
    rw [leVal_leBytes 4 p.length (by norm_num; omega)]
    have hne : ¬ (p.length = 0) := by omega
    simp only [hne, if_false, hlt, if_true]
    rw [List.take_left, List.drop_left]
  | deleted junk =>
    simp only [slotConforms, decide_eq_true_eq] at hc
    by_cases hz : junk.length = 0
    · have hj : junk = [] := List.length_eq_zero.mp hz
      subst hj
      have henc : encodeSlot (Slot.deleted []) = leBytes 4 0 := by rfl
      rw [henc]
      rw [linearScan_step]
      have hlen4 : (leBytes 4 0).length = 4 := length_leBytes 4 _
      have hge : 4 ≤ ((leBytes 4 0) ++ rest).length := by
        rw [List.length_append, hlen4]; omega
      rw [if_pos hge]
      rw [List.take_left' hlen4, List.drop_left' hlen4]
      rw [leVal_leBytes 4 0 (by norm_num)]
      simp
    · simp only [encodeSlot, hz, if_false, List.append_assoc]
      rw [linearScan_step]
      have hlen4 : (leBytes 4 (2 ^ 32 - junk.length)).length = 4 := length_leBytes 4 _
      have hge : 4 ≤ ((leBytes 4 (2 ^ 32 - junk.length)) ++ (junk ++ rest)).length := by
        rw [List.length_append, hlen4]; omega
      rw [if_pos hge]
      rw [List.take_left' hlen4, List.drop_left' hlen4]
      rw [leVal_leBytes 4 (2 ^ 32 - junk.length) (by norm_num; omega)]
      have h1 : ¬ (2 ^ 32 - junk.length = 0) := by norm_num; omega
      have h2 : ¬ (2 ^ 32 - junk.length < 2 ^ 31) := by norm_num; omega
      simp only [h1, if_false, h2]
      have h3 : 2 ^ 32 - (2 ^ 32 - junk.length) = junk.length := by norm_num; omega
      rw [h3, List.drop_left]

theorem linearScan_encodeSlots (slots : List Slot)
    (hc : ∀ s ∈ slots, slotConforms s = true) :
    linearScan (encodeSlots slots) = liveRecords slots := by
  induction slots with
  | nil => simp [encodeSlots, liveRecords, linearScan, linearScanAux]
  | cons s rest ih =>
    have hs := hc s (List.mem_cons_self _ _)
    have hrest : ∀ t ∈ rest, slotConforms t = true := fun t ht =>
      hc t (List.mem_cons_of_mem _ ht)
    simp only [encodeSlots, List.map_cons, List.flatten_cons]
    rw [linearScan_encodeSlot s _ hs]
    cases s with
    | live p => simp [liveRecords, encodeSlots] at ih ⊢; rw [ih hrest]
    | deleted junk => simp [liveRecords, encodeSlots] at ih ⊢; rw [ih hrest]

theorem lookup_append {α β : Type} [BEq α] (l1 l2 : List (α × β)) (a : α) :
    (l1 ++ l2).lookup a =
      (match l1.lookup a with
        | some b => some b
        | none => l2.lookup a) := by
  induction l1 with
  | nil => simp [List.lookup]
  | cons p l1 ih =>
    obtain ⟨k, v⟩ := p
    simp only [List.cons_append, List.lookup]
    cases a == k <;> simp [ih]

theorem lookup_addChild_self (cs : List (Option String × List String))
    (c : Option String) (n : String) :
    (addChild cs c n).lookup c = some ((cs.lookup c).getD [] ++ [n]) := by
  induction cs with
  | nil => simp [addChild, List.lookup]
  | cons p cs ih =>
    obtain ⟨c', ns⟩ := p
    by_cases hc : c' = c
    · subst hc
      simp [addChild, List.lookup]
    · have hb : (c' == c) = false := by simp [hc]
      have hb2 : (c == c') = false := by simp [Ne.symm hc]
      simp only [addChild, hb, Bool.false_eq_true, if_false, List.lookup, hb2]
      exact ih

theorem lookup_addChild_ne (cs : List (Option String × List String))
    (c c' : Option String) (n : String) (h : c' ≠ c) :
    (addChild cs c n).lookup c' = cs.lookup c' := by
  induction cs with
  | nil =>
    have hb : (c' == c) = false := by simp [h]
    simp [addChild, List.lookup, hb]
  | cons p cs ih =>
    obtain ⟨c2, ns⟩ := p
    by_cases hc : c2 = c
    · subst hc
      have hb : (c' == c2) = false := by simp [h]
      simp [addChild, List.lookup, hb]
    · have hb : (c2 == c) = false := by simp [hc]
      simp only [addChild, hb, Bool.false_eq_true, if_false, List.lookup]
      cases c' == c2 <;> simp [ih]

theorem lookup_ensure_getD (cs : List (Option String × List String))
    (c c' : Option String) :
    ((ensureContainer cs c).lookup c').getD [] = (cs.lookup c').getD [] := by
  unfold ensureContainer
  cases hx : cs.lookup c with
  | some ns => rfl
  | none =>
    rw [lookup_append]
    cases hy : cs.lookup c' with
    | some ns => simp
    | none =>
      by_cases hc : c' = c
      · subst hc
        simp [List.lookup]
      · have hb : (c' == c) = false := by simp [hc]
        simp [List.lookup, hb]

theorem childrenOf_buildStep (st : ItemTree × List Diag) (ci : ClassifiedItem)
    (c : Option String) :
    childrenOf (buildStep st ci).1 c =
      childrenOf st.1 c ++
        (if containerOf ci = c then [ci.item.name] else []) := by
  unfold buildStep childrenOf
  simp only []
  have hens : ∀ (cs : List (Option String × List String)),
      (((if ci.kind == .FeatureDataset then
          ensureContainer cs (some ci.item.name) else cs).lookup c).getD []) =
        ((cs.lookup c).getD []) := by
    intro cs
    cases ci.kind == Kind.FeatureDataset with
    | true => simp only [if_true]; exact lookup_ensure_getD cs _ c
    | false => simp only [Bool.false_eq_true, if_false]
  rw [hens]
  by_cases hc : containerOf ci = c
  · subst hc
    rw [lookup_addChild_self]
    simp
  · rw [lookup_addChild_ne _ _ _ _ (fun he => hc he.symm)]
    simp [hc]

theorem childrenOf_foldl (cis : List ClassifiedItem)
    (st : ItemTree × List Diag) (c : Option String) :
    childrenOf (cis.foldl buildStep st).1 c =
      childrenOf st.1 c ++
        (cis.filter (fun ci => containerOf ci == c)).map
          (fun ci => ci.item.name) := by
  induction cis generalizing st with
  | nil => simp
  | cons a l ih =>
    simp only [List.foldl_cons]
    rw [ih (buildStep st a), childrenOf_buildStep]
    by_cases hc : containerOf a = c
    · simp [List.filter_cons, hc]
    · simp [List.filter_cons, hc]

theorem items_proj_foldl (cis : List ClassifiedItem)
    (st : ItemTree × List Diag) :
    (cis.foldl buildStep st).1.items.map (fun e => (e.1, e.2.classified)) =
      st.1.items.map (fun e => (e.1, e.2.classified)) ++
        cis.map (fun ci => (ci.item.name, ci)) := by
  induction cis generalizing st with
  | nil => simp
  | cons a l ih =>
    simp only [List.foldl_cons]
    rw [ih (buildStep st a)]
    simp [buildStep]

theorem items_foldl_suffix (cis : List ClassifiedItem)
    (st : ItemTree × List Diag) :
    ∃ tail, (cis.foldl buildStep st).1.items = st.1.items ++ tail := by
  induction cis generalizing st with
  | nil => exact ⟨[], by simp⟩
  | cons a l ih =>
    obtain ⟨tail, htail⟩ := ih (buildStep st a)
    simp only [List.foldl_cons]
    rw [htail]
    simp only [buildStep]
    exact ⟨_, by rw [List.append_assoc]⟩

theorem diags_foldl_mem (cis : List ClassifiedItem)
    (st : ItemTree × List Diag) (d : Diag) (h : d ∈ st.2) :
    d ∈ (cis.foldl buildStep st).2 := by
  induction cis generalizing st with
  | nil => exact h
  | cons a l ih =>
    simp only [List.foldl_cons]
    apply ih
    simp only [buildStep]
    exact List.mem_append_left _ (List.mem_append_left _ h)

theorem getD_at_length {α : Type} (xs : List α) (y : α) (zs : List α) (d : α) :
    (xs ++ y :: zs).getD xs.length d = y := by
  induction xs with
  | nil => rfl
  | cons x xs ih => simpa using ih

theorem items_length_foldl (cis : List ClassifiedItem)
    (st : ItemTree × List Diag) :
    (cis.foldl buildStep st).1.items.length = st.1.items.length + cis.length := by
  have := items_proj_foldl cis st
  have hlen := congrArg List.length this
  simpa using hlen

theorem resolve_ok_tree (dir : GdbDirectory) (tree : ItemTree) (dgs : List Diag)
    (h : resolve_catalog dir = .ok (tree, dgs)) :
    tree = (buildTree (classifiedStage dir).1).1 := by
  unfold resolve_catalog at h
  split at h
  · simp at h
  · split at h
    · simp at h
    · simp only [Except.ok.injEq, Prod.mk.injEq] at h
      exact h.1.symm

theorem mem_updateAssoc {α β : Type} [BEq α] [LawfulBEq α]
    (l : List (α × β)) (k : α) (v : β) (e : α × β)
    (h : e ∈ updateAssoc l k v) : e ∈ l ∨ e = (k, v) := by
  induction l with
  | nil => simpa [updateAssoc] using h
  | cons p l ih =>
    obtain ⟨k', v'⟩ := p
    by_cases hk : k' = k
    · subst hk
      simp only [updateAssoc, beq_self_eq_true, if_true, List.mem_cons] at h
      cases h with
      | inl he => right; rw [he]
      | inr he => left; exact List.mem_cons_of_mem _ he
    · have hb : (k' == k) = false := by simp [hk]
      simp only [updateAssoc, hb, Bool.false_eq_true, if_false, List.mem_cons] at h
      cases h with
      | inl he => left; rw [he]; exact List.mem_cons_self _ _
      | inr he =>
        cases ih he with
        | inl hm => left; exact List.mem_cons_of_mem _ hm
        | inr hm => right; exact hm

theorem self_mem_updateAssoc {α β : Type} [BEq α] [LawfulBEq α]
    (l : List (α × β)) (k : α) (v : β) : (k, v) ∈ updateAssoc l k v := by
  induction l with
  | nil => simp [updateAssoc]
  | cons p l ih =>
    obtain ⟨k', v'⟩ := p
    by_cases hk : k' = k
    · subst hk
      simp [updateAssoc]
    · have hb : (k' == k) = false := by simp [hk]
      simp only [updateAssoc, hb, Bool.false_eq_true, if_false]
      exact List.mem_cons_of_mem _ ih

theorem lookup_updateAssoc_self {α β : Type} [BEq α] [LawfulBEq α]
    (l : List (α × β)) (k : α) (v : β) :
    (updateAssoc l k v).lookup k = some v := by
  induction l with
  | nil => simp [updateAssoc, List.lookup]
  | cons p l ih =>
    obtain ⟨k', v'⟩ := p
    by_cases hk : k' = k
    · subst hk
      simp [updateAssoc, List.lookup]
    · have hb : (k' == k) = false := by simp [hk]
      have hb2 : (k == k') = false := by simp [Ne.symm hk]
      simp only [updateAssoc, hb, Bool.false_eq_true, if_false, List.lookup, hb2]
      exact ih

theorem lookup_updateAssoc_ne {α β : Type} [BEq α] [LawfulBEq α]
    (l : List (α × β)) (k k2 : α) (v : β) (h : k2 ≠ k) :
    (updateAssoc l k v).lookup k2 = l.lookup k2 := by
  induction l with
  | nil =>
    have hb : (k2 == k) = false := by simp [h]
    simp [updateAssoc, List.lookup, hb]
  | cons p l ih =>
    obtain ⟨k', v'⟩ := p
    by_cases hk : k' = k
    · subst hk
      have hb : (k2 == k') = false := by simp [h]
      simp [updateAssoc, List.lookup, hb]
    · have hb : (k' == k) = false := by simp [hk]
      simp only [updateAssoc, hb, Bool.false_eq_true, if_false, List.lookup]
      cases k2 == k' <;> simp [ih]

theorem fdsInv_trySet (fds : FeatureDataset) (n : String) (fc : FeatureClass)
    (h : fdsInv fds) : fdsInv (trySet fds n fc) := by
  unfold trySet fdsSetItem
  cases hcrs : fds.crs with
  | none =>
    intro e he
    simp only [] at he
    cases mem_updateAssoc _ _ _ _ he with
    | inl hm => have := h e hm; rw [hcrs] at this; simp at this
    | inr hm => rw [hm]
  | some c =>
    by_cases hfc : c = fc.crs
    · simp only [hfc, if_true]
      intro e he
      simp only [] at he
      cases mem_updateAssoc _ _ _ _ he with
      | inl hm => have := h e hm; rw [hcrs, hfc] at this; exact this
      | inr hm => rw [hm]
    · simp only [hfc, if_false]
      intro e he
      exact h e he

theorem fdsInv_applyOps (ops : List (String × FeatureClass)) :
    fdsInv (applyOps ops) := by
  have hgen : ∀ (l : List (String × FeatureClass)) (fds : FeatureDataset),
      fdsInv fds → fdsInv (l.foldl (fun f p => trySet f p.1 p.2) fds) := by
    intro l
    induction l with
    | nil => intro fds h; exact h
    | cons p l ih =>
      intro fds h
      exact ih _ (fdsInv_trySet fds p.1 p.2 h)
  apply hgen
  intro e he
  simp [FeatureDataset.empty] at he

theorem childrenOf_empty (c : Option String) : childrenOf emptyTree c = [] := by
  cases c with
  | none => rfl
  | some s => rfl

/-- C2: `resolve_catalog` on an unchanged directory is deterministic: two
calls return identical trees and diagnostics, and within one resolution the
children of every container are exactly the names of the items filed under
it, in items-table scan order. -/
theorem claim_resolve_deterministic_ordering :
    (∀ dir : GdbDirectory, resolve_catalog dir = resolve_catalog dir) ∧
    (∀ (cis : List ClassifiedItem) (c : Option String),
      childrenOf (buildTree cis).1 c =
        (cis.filter (fun ci => containerOf ci == c)).map
          (fun ci => ci.item.name)) := by
  constructor
  · intro dir
    rfl
  · intro cis c
    unfold buildTree
    rw [childrenOf_foldl cis (emptyTree, []) c]
    rw [childrenOf_empty]
    simp

/-- C3: when the companion index is absent or invalid (ill-formed or its
record count disagrees with the header's), the Table Reader falls back to
the length-prefixed linear scan, recovering every live record the stream
holds — as many as the header declares — and skipping slots whose declared
length is zero or negative as deleted. -/
theorem claim_index_fallback_recovers_all (hdr : TableHeader)
    (idx : Option IndexFile) (slots : List Slot)
    (hmagic : hdr.magic = gdbMagic)
    (hconf : ∀ s ∈ slots, slotConforms s = true)
    (hcount : hdr.recordCount = (liveRecords slots).length)
    (hidx : ∀ ix, idx = some ix → ixValid hdr ix = false) :
    readTable hdr idx (encodeSlots slots) = .ok (liveRecords slots) ∧
    (liveRecords slots).length = hdr.recordCount := by
  refine ⟨?_, hcount.symm⟩
  unfold readTable
  rw [hmagic]
  simp only [ne_eq, not_true_eq_false, if_false]
  cases idx with
  | none => rw [linearScan_encodeSlots slots hconf]
  | some ix =>
    show (if ixValid hdr ix = true then
        Except.ok (indexedRead ix (encodeSlots slots))
      else Except.ok (linearScan (encodeSlots slots))) =
      Except.ok (liveRecords slots)
    rw [hidx ix rfl]
    simp only [Bool.false_eq_true, if_false]
    rw [linearScan_encodeSlots slots hconf]

/-- C3 witness: an index declaring 10 records against a header declaring 12
is rejected and the linear scan recovers all 12 records. -/
theorem claim_index_fallback_recovers_all_witness :
    readTable ⟨gdbMagic, 12, []⟩ (some tenIndex) (encodeSlots twelveSlots) =
      .ok (liveRecords twelveSlots) ∧
    (liveRecords twelveSlots).length = (⟨gdbMagic, 12, []⟩ : TableHeader).recordCount :=
  claim_index_fallback_recovers_all ⟨gdbMagic, 12, []⟩ (some tenIndex)
    twelveSlots rfl (by decide) (by decide) (by decide)

/-- C4: the Record Decoder reads the `ceil(fieldCount/8)`-byte null bitmask
first; a field whose bit marks it absent decodes to a null of its declared
type, and decoding stays aligned: a conforming record round-trips exactly,
nulls consuming zero payload bytes. -/
theorem claim_null_bitmask_alignment :
    (∀ (ds : List FieldDescriptor) (bytes : List Nat) (vs : List Value) (j : Nat),
      decodeRecord ds bytes = .ok vs → j < ds.length →
      bitSet (bytes.take ((ds.length + 7) / 8)) j = false →
      vs.getD j (.null .Text) = .null ((ds.getD j ⟨"", .Text, true⟩).ftype)) ∧
    (∀ (ds : List FieldDescriptor) (vs : List Value),
      recConforms ds vs = true → decodeRecord ds (encodeRecord vs) = .ok vs) :=
  ⟨decodeRecord_null, decodeRecord_encodeRecord⟩

/-- C4 witness: a four-field record whose bitmask marks the third field
absent decodes to a null at position 3 (index 2) and the later field still
decodes; the record also round-trips. -/
theorem claim_null_bitmask_alignment_witness :
    ([Value.intVal .ShortInt 7, .bytesVal .Text [65, 0], .null .LongInt,
        .intVal .Float64 99] : List Value).getD 2 (.null .Text) =
      .null ((([⟨"a", .ShortInt, true⟩, ⟨"b", .Text, true⟩, ⟨"c", .LongInt, true⟩,
        ⟨"d", .Float64, true⟩] : List FieldDescriptor).getD 2
          ⟨"", .Text, true⟩).ftype) ∧
    decodeRecord [⟨"a", .ShortInt, true⟩, ⟨"b", .Text, true⟩, ⟨"c", .LongInt, true⟩,
        ⟨"d", .Float64, true⟩]
      (encodeRecord [.intVal .ShortInt 7, .bytesVal .Text [65, 0], .null .LongInt,
        .intVal .Float64 99]) =
      .ok [.intVal .ShortInt 7, .bytesVal .Text [65, 0], .null .LongInt,
        .intVal .Float64 99] :=
  ⟨claim_null_bitmask_alignment.1
      [⟨"a", .ShortInt, true⟩, ⟨"b", .Text, true⟩, ⟨"c", .LongInt, true⟩,
        ⟨"d", .Float64, true⟩]
      (encodeRecord [.intVal .ShortInt 7, .bytesVal .Text [65, 0], .null .LongInt,
        .intVal .Float64 99])
      [.intVal .ShortInt 7, .bytesVal .Text [65, 0], .null .LongInt,
        .intVal .Float64 99]
      2 (by decide) (by decide) (by decide),
    claim_null_bitmask_alignment.2
      [⟨"a", .ShortInt, true⟩, ⟨"b", .Text, true⟩, ⟨"c", .LongInt, true⟩,
        ⟨"d", .Float64, true⟩]
      [.intVal .ShortInt 7, .bytesVal .Text [65, 0], .null .LongInt,
        .intVal .Float64 99]
      (by decide)⟩

/-- C5: a record whose field decoding would read beyond the remaining
payload raises a FormatError for that record only: it is reported and
skipped, the scan continues with the following records, and every surfaced
record comes from a complete, successful decode. -/
theorem claim_record_error_containment :
    (∀ (ds : List FieldDescriptor) (raws1 : List (List Nat)) (r : List Nat)
        (raws2 : List (List Nat)) (e : FormatError),
      decodeRecord ds r = .error e →
      (decodeRecords ds (raws1 ++ r :: raws2)).1 =
        (decodeRecords ds (raws1 ++ raws2)).1 ∧
      Diag.formatError e ∈ (decodeRecords ds (raws1 ++ r :: raws2)).2) ∧
    (∀ (ds : List FieldDescriptor) (raws : List (List Nat)) (vs : List Value),
      vs ∈ (decodeRecords ds raws).1 → ∃ r ∈ raws, decodeRecord ds r = .ok vs) ∧
    (∀ (t : FieldType) (w : Nat) (payload : List Nat),
      t.fixedWidth = some w → payload.length < w →
      decodeField t payload = .error .truncated) :=
  ⟨decodeRecords_skip_error, decodeRecords_sound, decodeField_truncated⟩

/-- C5 witness: a truncated record among two good ones is skipped with a
diagnostic while both good records are still decoded, and a short payload
for a 4-byte field is a truncation error. -/
theorem claim_record_error_containment_witness :
    ((decodeRecords [⟨"c", .LongInt, true⟩]
        ([[1, 9, 0, 0, 0]] ++ [1, 9] :: [[1, 8, 0, 0, 0]])).1 =
      (decodeRecords [⟨"c", .LongInt, true⟩] ([[1, 9, 0, 0, 0]] ++ [[1, 8, 0, 0, 0]])).1 ∧
      Diag.formatError .truncated ∈
        (decodeRecords [⟨"c", .LongInt, true⟩]
          ([[1, 9, 0, 0, 0]] ++ [1, 9] :: [[1, 8, 0, 0, 0]])).2) ∧
    (∃ r ∈ [[1, 9, 0, 0, 0], [1, 9], [1, 8, 0, 0, 0]],
      decodeRecord [⟨"c", .LongInt, true⟩] r = .ok [.intVal .LongInt 9]) ∧
    decodeField .LongInt [5] = .error .truncated :=
  ⟨claim_record_error_containment.1 [⟨"c", .LongInt, true⟩] [[1, 9, 0, 0, 0]]
      [1, 9] [[1, 8, 0, 0, 0]] .truncated (by decide),
    claim_record_error_containment.2.1 [⟨"c", .LongInt, true⟩]
      [[1, 9, 0, 0, 0], [1, 9], [1, 8, 0, 0, 0]] [.intVal .LongInt 9] (by decide),
    claim_record_error_containment.2.2 .LongInt 4 [5] (by decide) (by decide)⟩

/-- C6: the Item Classifier is a pure total function: every GUID in the
fixed table maps to its Kind, every other GUID maps to Unknown (never an
error), and an Unknown item keeps no parsed metadata yet still appears in
the built tree. -/
theorem claim_classifier_total_pure :
    (∀ g k, (g, k) ∈ knownTypeGuids → classify g = k) ∧
    (∀ g, g ∉ knownTypeGuids.map Prod.fst → classify g = .Unknown) ∧
    (∀ it : CatalogItem, classify it.typeGuid = .Unknown →
      (classifyItem it).1.kind = .Unknown ∧
        (classifyItem it).1.meta = emptyMetadata) ∧
    (∀ (cis : List ClassifiedItem) (ci : ClassifiedItem), ci ∈ cis →
      ci.item.name ∈ (buildTree cis).1.items.map Prod.fst) := by
  refine ⟨?_, ?_, ?_, ?_⟩
  · intro g k h
    simp only [knownTypeGuids, List.mem_cons, List.not_mem_nil, or_false,
      Prod.mk.injEq] at h
    rcases h with ⟨rfl, rfl⟩ | ⟨rfl, rfl⟩ | ⟨rfl, rfl⟩ | ⟨rfl, rfl⟩ <;> rfl
  · intro g h
    simp only [knownTypeGuids, List.map_cons, List.map_nil, List.mem_cons,
      List.not_mem_nil, or_false, not_or] at h
    obtain ⟨h1, h2, h3, h4⟩ := h
    have b1 : (g == featureDatasetGuid) = false := by simp [h1]
    have b2 : (g == featureClassGuid) = false := by simp [h2]
    have b3 : (g == tableGuid) = false := by simp [h3]
    have b4 : (g == rasterDatasetGuid) = false := by simp [h4]
    simp [classify, knownTypeGuids, List.lookup, b1, b2, b3, b4]
  · intro it h
    simp [classifyItem, h]
  · intro cis ci h
    have hproj := items_proj_foldl cis (emptyTree, [])
    have : (ci.item.name, ci) ∈
        (buildTree cis).1.items.map (fun e => (e.1, e.2.classified)) := by
      unfold buildTree
      rw [hproj]
      apply List.mem_append_right
      exact List.mem_map_of_mem _ h
    obtain ⟨e, he, hev⟩ := List.mem_map.mp this
    have : e.1 = ci.item.name := congrArg Prod.fst hev
    rw [← this]
    exact List.mem_map_of_mem _ he

/-- C6 witness: the FeatureClass GUID classifies to FeatureClass; a GUID
outside the table classifies to Unknown; an item with an unknown type GUID
keeps Kind Unknown with empty metadata and its name still shows up in the
tree's side table. -/
theorem claim_classifier_total_pure_witness :
    classify featureClassGuid = .FeatureClass ∧
    classify 42 = .Unknown ∧
    ((classifyItem ⟨9, 42, "Mystery", "Mystery", [1, 5]⟩).1.kind = .Unknown ∧
      (classifyItem ⟨9, 42, "Mystery", "Mystery", [1, 5]⟩).1.meta = emptyMetadata) ∧
    "Mystery" ∈ (buildTree [⟨⟨9, 42, "Mystery", "Mystery", [1, 5]⟩, .Unknown,
      emptyMetadata⟩]).1.items.map Prod.fst :=
  ⟨claim_classifier_total_pure.1 featureClassGuid .FeatureClass (by decide),
    claim_classifier_total_pure.2.1 42 (by decide),
    claim_classifier_total_pure.2.2.1 ⟨9, 42, "Mystery", "Mystery", [1, 5]⟩
      (by decide),
    claim_classifier_total_pure.2.2.2
      [⟨⟨9, 42, "Mystery", "Mystery", [1, 5]⟩, .Unknown, emptyMetadata⟩]
      ⟨⟨9, 42, "Mystery", "Mystery", [1, 5]⟩, .Unknown, emptyMetadata⟩
      (List.mem_singleton.mpr rfl)⟩

/-- C9: a FeatureDataset created empty has no CRS; it adopts the CRS of the
first FeatureClass inserted; a later insertion with a different CRS raises
an error leaving the dataset unchanged; hence every class in any dataset
built by insertions shares the dataset's single CRS. -/
theorem claim_fds_crs_invariant :
    FeatureDataset.empty.crs = none ∧
    (∀ (fds : FeatureDataset) (n : String) (fc : FeatureClass),
      fds.crs = none →
      fdsSetItem fds n fc = .ok ⟨some fc.crs, updateAssoc fds.classes n fc⟩) ∧
    (∀ (fds : FeatureDataset) (n : String) (fc : FeatureClass) (c : String),
      fds.crs = some c → fc.crs ≠ c →
      fdsSetItem fds n fc = .error .crsMismatch ∧ trySet fds n fc = fds) ∧
    (∀ (ops : List (String × FeatureClass)) (e : String × FeatureClass),
      e ∈ (applyOps ops).classes → some e.2.crs = (applyOps ops).crs) := by
  refine ⟨rfl, ?_, ?_, ?_⟩
  · intro fds n fc h
    simp [fdsSetItem, h]
  · intro fds n fc c h hne
    have herr : fdsSetItem fds n fc = .error .crsMismatch := by
      simp only [fdsSetItem, h]
      rw [if_neg (fun he => hne he.symm)]
    exact ⟨herr, by simp [trySet, herr]⟩
  · intro ops e he
    exact fdsInv_applyOps ops e he

/-- C9 witness: the invariant at concrete inputs: an empty dataset has no
CRS and adopts the first class's CRS; a mismatching second insert errors and
leaves the dataset as it was; all inserted classes share the dataset CRS. -/
theorem claim_fds_crs_invariant_witness :
    FeatureDataset.empty.crs = none ∧
    fdsSetItem FeatureDataset.empty "NHS" ⟨"EPSG:3857", 5⟩ =
      .ok ⟨some "EPSG:3857", [("NHS", ⟨"EPSG:3857", 5⟩)]⟩ ∧
    (fdsSetItem ⟨some "EPSG:3857", [("NHS", ⟨"EPSG:3857", 5⟩)]⟩ "bad"
        ⟨"EPSG:4326", 1⟩ = .error .crsMismatch ∧
      trySet ⟨some "EPSG:3857", [("NHS", ⟨"EPSG:3857", 5⟩)]⟩ "bad"
        ⟨"EPSG:4326", 1⟩ = ⟨some "EPSG:3857", [("NHS", ⟨"EPSG:3857", 5⟩)]⟩) ∧
    some ("NHS", (⟨"EPSG:3857", 5⟩ : FeatureClass)).2.crs =
      (applyOps [("NHS", ⟨"EPSG:3857", 5⟩), ("bad", ⟨"EPSG:4326", 1⟩)]).crs :=
  ⟨claim_fds_crs_invariant.1,
    claim_fds_crs_invariant.2.1 FeatureDataset.empty "NHS" ⟨"EPSG:3857", 5⟩ rfl,
    claim_fds_crs_invariant.2.2.1 ⟨some "EPSG:3857", [("NHS", ⟨"EPSG:3857", 5⟩)]⟩
      "bad" ⟨"EPSG:4326", 1⟩ "EPSG:3857" rfl (by decide),
    claim_fds_crs_invariant.2.2.2
      [("NHS", ⟨"EPSG:3857", 5⟩), ("bad", ⟨"EPSG:4326", 1⟩)]
      ("NHS", ⟨"EPSG:3857", 5⟩) (by decide)⟩

/-- C10: assigning a FeatureClass directly to a GeoDatabase key places it in
the FeatureDataset named `none`, creating that dataset on demand; no other
dataset changes, so the class lives in exactly that one container. -/
theorem claim_gdb_none_dataset (g g2 : GeoDatabase) (k : String)
    (c : FeatureClass) (h : gdbSetItem g k (.fc c) = .ok g2) :
    ∃ d2, g2.datasets.lookup none = some d2 ∧ (k, c) ∈ d2.classes ∧
      (∀ k2, k2 ≠ none → g2.datasets.lookup k2 = g.datasets.lookup k2) ∧
      (g.datasets.lookup none = none → d2 = ⟨some c.crs, [(k, c)]⟩) := by
  simp only [gdbSetItem] at h
  cases hset : fdsSetItem ((g.datasets.lookup none).getD FeatureDataset.empty)
      k c with
  | error e => rw [hset] at h; simp at h
  | ok d2 =>
    rw [hset] at h
    simp only [Except.ok.injEq] at h
    subst h
    refine ⟨d2, ?_, ?_, ?_, ?_⟩
    · simp only []
      exact lookup_updateAssoc_self _ _ _
    · have : d2.classes =
          updateAssoc ((g.datasets.lookup none).getD FeatureDataset.empty).classes
            k c := by
        unfold fdsSetItem at hset
        split at hset
        · simp only [Except.ok.injEq] at hset
          rw [← hset]
        · split at hset
          · simp only [Except.ok.injEq] at hset
            rw [← hset]
          · simp at hset
      rw [this]
      exact self_mem_updateAssoc _ _ _
    · intro k2 hk2
      simp only []
      exact lookup_updateAssoc_ne _ _ _ _ hk2
    · intro hnone
      rw [hnone] at hset
      simp only [Option.getD_none] at hset
      unfold fdsSetItem FeatureDataset.empty at hset
      simp only [Except.ok.injEq] at hset
      rw [← hset]
      rfl

/-- C10 witness: assigning a class to an empty GeoDatabase creates the
`none` dataset holding exactly that class. -/
theorem claim_gdb_none_dataset_witness :
    ∃ d2, (⟨[(none, ⟨some "EPSG:3857", [("NHS_fc", ⟨"EPSG:3857", 5⟩)]⟩)]⟩ :
        GeoDatabase).datasets.lookup none = some d2 ∧
      ("NHS_fc", (⟨"EPSG:3857", 5⟩ : FeatureClass)) ∈ d2.classes ∧
      (∀ k2, k2 ≠ none →
        (⟨[(none, ⟨some "EPSG:3857", [("NHS_fc", ⟨"EPSG:3857", 5⟩)]⟩)]⟩ :
          GeoDatabase).datasets.lookup k2 =
          (⟨[]⟩ : GeoDatabase).datasets.lookup k2) ∧
      ((⟨[]⟩ : GeoDatabase).datasets.lookup none = none →
        d2 = ⟨some (⟨"EPSG:3857", 5⟩ : FeatureClass).crs, [("NHS_fc", ⟨"EPSG:3857", 5⟩)]⟩) :=
  claim_gdb_none_dataset ⟨[]⟩
    ⟨[(none, ⟨some "EPSG:3857", [("NHS_fc", ⟨"EPSG:3857", 5⟩)]⟩)]⟩
    "NHS_fc" ⟨"EPSG:3857", 5⟩ (by decide)

/-- C8: when the items table yields zero valid records, `resolve_catalog`
succeeds and the resulting ItemTree holds exactly one container — the empty
sentinel root — with no children and no items. -/
theorem claim_empty_items_root_only (dir : GdbDirectory)
    (raws : List (List Nat))
    (hloc : locateCatalog dir = .ok ())
    (hread : readTable dir.itemsHeader dir.itemsIndex dir.itemsBytes = .ok raws)
    (hzero : (decodeRecords dir.itemsHeader.fields raws).1 = []) :
    (∃ dgs, resolve_catalog dir = .ok (emptyTree, dgs)) ∧
    emptyTree.containers = [(none, [])] ∧ emptyTree.items = [] := by
  refine ⟨?_, rfl, rfl⟩
  have hcs : (classifiedStage dir).1 = [] := by
    unfold classifiedStage
    rw [hread]
    simp only [hzero]
    rfl
  unfold resolve_catalog
  rw [hloc, hread]
  simp only [hcs]
  exact ⟨_, rfl⟩

/-- C8 witness: a directory with a valid master catalog and an empty items
table resolves to the root-only tree. -/
theorem claim_empty_items_root_only_witness :
    (∃ dgs, resolve_catalog emptyItemsDir = .ok (emptyTree, dgs)) ∧
    emptyTree.containers = [(none, [])] ∧ emptyTree.items = [] :=
  claim_empty_items_root_only emptyItemsDir [] (by decide) (by decide) (by decide)

/-- C1: on a well-formed catalog (distinct item names; each feature class or
raster dataset's parent segment names some Feature Dataset item),
`resolve_catalog` returns a tree whose side table lists every scanned item
exactly once, and every FeatureClass or RasterDataset whose path has a
parent segment is a child of the container named by that segment — a
container that corresponds to a FeatureDataset entry of the tree. -/
theorem claim_resolve_items_once_and_nesting (dir : GdbDirectory)
    (tree : ItemTree) (dgs : List Diag) (cis : List ClassifiedItem)
    (hres : resolve_catalog dir = .ok (tree, dgs))
    (hcis : (classifiedStage dir).1 = cis)
    (hnodup : (cis.map (fun ci => ci.item.name)).Nodup)
    (hwf : ∀ ci ∈ cis, (ci.kind = .FeatureClass ∨ ci.kind = .RasterDataset) →
      ∀ p ∈ (parentOf ci.item.path).toList,
        ∃ d ∈ cis, d.kind = .FeatureDataset ∧ d.item.name = p) :
    (tree.items.map Prod.fst = cis.map (fun ci => ci.item.name)) ∧
    (∀ ci ∈ cis, (tree.items.map Prod.fst).count ci.item.name = 1) ∧
    (∀ ci ∈ cis, (ci.kind = .FeatureClass ∨ ci.kind = .RasterDataset) →
      ∀ p, parentOf ci.item.path = some p →
        ci.item.name ∈ childrenOf tree (some p)) ∧
    (∀ ci ∈ cis, (ci.kind = .FeatureClass ∨ ci.kind = .RasterDataset) →
      ∀ p, parentOf ci.item.path = some p →
        ∃ e ∈ tree.items, e.1 = p ∧ e.2.classified.kind = .FeatureDataset) := by
  have htree : tree = (buildTree cis).1 := by
    rw [← hcis]
    exact resolve_ok_tree dir tree dgs hres
  subst htree
  have hnames : (buildTree cis).1.items.map Prod.fst =
      cis.map (fun ci => ci.item.name) := by
    have hproj := items_proj_foldl cis (emptyTree, [])
    have := congrArg (List.map Prod.fst) hproj
    simpa [List.map_map, Function.comp, emptyTree, buildTree] using this
  refine ⟨hnames, ?_, ?_, ?_⟩
  · intro ci hci
    rw [hnames]
    exact List.count_eq_one_of_mem hnodup (List.mem_map_of_mem _ hci)
  · intro ci hci hkind p hp
    have hcont : containerOf ci = some p := by
      cases hkind with
      | inl hf => simp [containerOf, hf, hp]
      | inr hr => simp [containerOf, hr, hp]
    unfold buildTree
    rw [childrenOf_foldl cis (emptyTree, []) (some p), childrenOf_empty]
    simp only [List.nil_append]
    apply List.mem_map_of_mem
    rw [List.mem_filter]
    exact ⟨hci, by simp [hcont]⟩
  · intro ci hci hkind p hp
    obtain ⟨d, hd, hdk, hdn⟩ := hwf ci hci hkind p (by simp [hp])
    have hproj := items_proj_foldl cis (emptyTree, [])
    have hmem : (d.item.name, d) ∈
        (buildTree cis).1.items.map (fun e => (e.1, e.2.classified)) := by
      unfold buildTree
      rw [hproj]
      exact List.mem_append_right _ (List.mem_map_of_mem _ hd)
    obtain ⟨e, he, hev⟩ := List.mem_map.mp hmem
    refine ⟨e, he, ?_, ?_⟩
    · have : e.1 = d.item.name := congrArg Prod.fst hev
      rw [this, hdn]
    · have : e.2.classified = d := congrArg Prod.snd hev
      rw [this, hdk]

set_option maxRecDepth 100000 in
/-- C1 witness: the two-item sample catalog (a Transportation feature
dataset containing a Roads feature class) resolves with both items listed
once, Roads filed under Transportation, and Transportation present as a
FeatureDataset entry. -/
theorem claim_resolve_items_once_and_nesting_witness :
    ((buildTree (classifiedStage sampleDir).1).1.items.map Prod.fst =
      (classifiedStage sampleDir).1.map (fun ci => ci.item.name)) ∧
    (∀ ci ∈ (classifiedStage sampleDir).1,
      ((buildTree (classifiedStage sampleDir).1).1.items.map Prod.fst).count
        ci.item.name = 1) ∧
    (∀ ci ∈ (classifiedStage sampleDir).1,
      (ci.kind = .FeatureClass ∨ ci.kind = .RasterDataset) →
      ∀ p, parentOf ci.item.path = some p →
        ci.item.name ∈ childrenOf (buildTree (classifiedStage sampleDir).1).1
          (some p)) ∧
    (∀ ci ∈ (classifiedStage sampleDir).1,
      (ci.kind = .FeatureClass ∨ ci.kind = .RasterDataset) →
      ∀ p, parentOf ci.item.path = some p →
        ∃ e ∈ (buildTree (classifiedStage sampleDir).1).1.items,
          e.1 = p ∧ e.2.classified.kind = .FeatureDataset) :=
  claim_resolve_items_once_and_nesting sampleDir
    (buildTree (classifiedStage sampleDir).1).1
    ((classifiedStage sampleDir).2 ++ (buildTree (classifiedStage sampleDir).1).2)
    (classifiedStage sampleDir).1
    (by decide) rfl (by decide) (by decide)

theorem buildTree_names (cis : List ClassifiedItem) :
    (buildTree cis).1.items.map Prod.fst =
      cis.map (fun ci => ci.item.name) := by
  have hproj := items_proj_foldl cis (emptyTree, [])
  have := congrArg (List.map Prod.fst) hproj
  simpa [List.map_map, Function.comp, emptyTree, buildTree] using this

/-- C7: when a later item claims the same name under the same container as
an earlier one, the Hierarchy Builder reports a StructuralConflict, keeps
both occurrences in the side table (the first is not overwritten), and the
second occurrence is the one marked ambiguous. -/
theorem claim_name_collision_conflict (l1 l2 l3 : List ClassifiedItem)
    (a b : ClassifiedItem) (hname : a.item.name = b.item.name)
    (hcont : containerOf a = containerOf b) :
    Diag.structuralConflict b.item.name (containerOf b) ∈
      (buildTree (l1 ++ a :: (l2 ++ b :: l3))).2 ∧
    (buildTree (l1 ++ a :: (l2 ++ b :: l3))).1.items.map Prod.fst =
      (l1 ++ a :: (l2 ++ b :: l3)).map (fun ci => ci.item.name) ∧
    ((buildTree (l1 ++ a :: (l2 ++ b :: l3))).1.items.getD
      (l1.length + 1 + l2.length) dfltEntry).2.classified = b ∧
    ((buildTree (l1 ++ a :: (l2 ++ b :: l3))).1.items.getD
      (l1.length + 1 + l2.length) dfltEntry).2.ambiguous = true ∧
    ((buildTree (l1 ++ a :: (l2 ++ b :: l3))).1.items.getD
      l1.length dfltEntry).2.classified = a := by
  have hsplit : l1 ++ a :: (l2 ++ b :: l3) = (l1 ++ a :: l2) ++ b :: l3 := by
    simp
  have hfold : buildTree (l1 ++ a :: (l2 ++ b :: l3)) =
      l3.foldl buildStep
        (buildStep ((l1 ++ a :: l2).foldl buildStep (emptyTree, [])) b) := by
    unfold buildTree
    rw [hsplit, List.foldl_append, List.foldl_cons]
  have hamb : ((childrenOf ((l1 ++ a :: l2).foldl buildStep (emptyTree, [])).1
      (containerOf b)).contains b.item.name) = true := by
    rw [childrenOf_foldl (l1 ++ a :: l2) _ (containerOf b), childrenOf_empty,
      List.nil_append]
    have hmem : b.item.name ∈
        ((l1 ++ a :: l2).filter (fun ci => containerOf ci == containerOf b)).map
          (fun ci => ci.item.name) := by
      rw [← hname]
      apply List.mem_map_of_mem
      rw [List.mem_filter]
      exact ⟨by simp, by simp [hcont]⟩
    simpa using hmem
  have hstepb : buildStep ((l1 ++ a :: l2).foldl buildStep (emptyTree, [])) b =
      (⟨(if b.kind == Kind.FeatureDataset then
          ensureContainer (addChild ((l1 ++ a :: l2).foldl buildStep
            (emptyTree, [])).1.containers (containerOf b) b.item.name)
            (some b.item.name)
        else addChild ((l1 ++ a :: l2).foldl buildStep
          (emptyTree, [])).1.containers (containerOf b) b.item.name),
        ((l1 ++ a :: l2).foldl buildStep (emptyTree, [])).1.items ++
          [(b.item.name, ⟨b, true,
            b.kind == Kind.FeatureDataset && (parentOf b.item.path).isSome⟩)]⟩,
      ((l1 ++ a :: l2).foldl buildStep (emptyTree, [])).2 ++
        [Diag.structuralConflict b.item.name (containerOf b)] ++
        (if (b.kind == Kind.FeatureDataset && (parentOf b.item.path).isSome) = true
          then [Diag.structuralAnomaly b.item.name] else [])) := by
    simp only [buildStep, hamb, if_true]
  have hdiag : Diag.structuralConflict b.item.name (containerOf b) ∈
      (buildStep ((l1 ++ a :: l2).foldl buildStep (emptyTree, [])) b).2 := by
    rw [hstepb]
    exact List.mem_append_left _
      (List.mem_append_right _ (List.mem_singleton.mpr rfl))
  have hlenB : ((l1 ++ a :: l2).foldl buildStep
      (emptyTree, [])).1.items.length = l1.length + 1 + l2.length := by
    rw [items_length_foldl]
    simp [emptyTree]
    omega
  refine ⟨?_, buildTree_names _, ?_, ?_, ?_⟩
  · rw [hfold]
    exact diags_foldl_mem l3 _ _ hdiag
  · obtain ⟨tail, htail⟩ := items_foldl_suffix l3
      (buildStep ((l1 ++ a :: l2).foldl buildStep (emptyTree, [])) b)
    rw [hfold, htail, hstepb]
    simp only []
    rw [List.append_assoc, List.singleton_append, ← hlenB, getD_at_length]
  · obtain ⟨tail, htail⟩ := items_foldl_suffix l3
      (buildStep ((l1 ++ a :: l2).foldl buildStep (emptyTree, [])) b)
    rw [hfold, htail, hstepb]
    simp only []
    rw [List.append_assoc, List.singleton_append, ← hlenB, getD_at_length]
  · have hfoldA : buildTree (l1 ++ a :: (l2 ++ b :: l3)) =
        (l2 ++ b :: l3).foldl buildStep
          (buildStep (l1.foldl buildStep (emptyTree, [])) a) := by
      unfold buildTree
      rw [List.foldl_append, List.foldl_cons]
    have hlenA : (l1.foldl buildStep (emptyTree, [])).1.items.length =
        l1.length := by
      rw [items_length_foldl]
      simp [emptyTree]
    obtain ⟨tail, htail⟩ := items_foldl_suffix (l2 ++ b :: l3)
      (buildStep (l1.foldl buildStep (emptyTree, [])) a)
    rw [hfoldA, htail]
    simp only [buildStep]
    rw [List.append_assoc, List.singleton_append, ← hlenA, getD_at_length]

/-- C7 witness: two standalone items both named Dup: the conflict is
reported, both entries remain in order, and the second is the ambiguous
one. -/
theorem claim_name_collision_conflict_witness :
    Diag.structuralConflict dupB.item.name (containerOf dupB) ∈
      (buildTree [dupA, dupB]).2 ∧
    (buildTree [dupA, dupB]).1.items.map Prod.fst =
      [dupA, dupB].map (fun ci => ci.item.name) ∧
    ((buildTree [dupA, dupB]).1.items.getD 1 dfltEntry).2.classified = dupB ∧
    ((buildTree [dupA, dupB]).1.items.getD 1 dfltEntry).2.ambiguous = true ∧
    ((buildTree [dupA, dupB]).1.items.getD 0 dfltEntry).2.classified = dupA :=
  claim_name_collision_conflict [] [] [] dupA dupB rfl rfl

end Ouroboros
